import Mathlib

/-!
Shallow embedding of the tool-enablement reconciliation core of the
assistants web interface: the hooks in `hooks/tools.ts` (tool filtering,
toggle handling, Google Drive picker validation) and the deployment
configuration modal in `components/EditEnvVariablesButton.tsx`.

JavaScript objects holding environment-variable drafts are modelled as
association lists that preserve insertion order, matching the iteration
order of string-keyed JavaScript objects.  Absent (`undefined`) values are
modelled with `Option`.
-/

namespace CohereToolkit

/-- A managed tool as returned by the tool catalog (`ManagedTool`). -/
structure ManagedTool where
  name : String
  is_visible : Bool
  is_available : Bool
  is_auth_required : Bool
  token : Option String := none
deriving DecidableEq, Repr

/-- An entry of the enabled-tool list stored in session parameters.
The toggle handler appends objects of shape `{ name }`. -/
structure EnabledToolRef where
  name : String
deriving DecidableEq, Repr

/-- The slice of session state touched by `handleToggle` in
`useAvailableTools`: the `tools` and `fileIds` params and the composer
file-staging collection cleared by `clearComposerFiles`. -/
structure SessionState where
  tools : Option (List EnabledToolRef)
  fileIds : List String
  composerFiles : List String
deriving DecidableEq, Repr

/-- The filter of `useAvailableTools`:
`(managedTools ?? []).filter((t) => t.is_visible && t.is_available &&
(!requiredTools || requiredTools.some((rt) => rt === t.name)))`.
`requiredTools` is `agent?.tools`; a JavaScript `undefined` is `none`
(an empty array is truthy, hence `some []`). -/
def availableTools (managedTools : List ManagedTool)
    (requiredTools : Option (List String)) : List ManagedTool :=
  managedTools.filter fun t =>
    t.is_visible && t.is_available &&
      (match requiredTools with
       | none => true
       | some rts => rts.any fun rt => rt == t.name)

/-- The toggle handler of `useAvailableTools`.  With `checked` it appends
`{ name }` to the enabled tools, otherwise it filters the name out; when
the name equals the default file loader tool's name it additionally resets
`fileIds` to `[]` and clears the composer files. -/
def handleToggle (defaultFileLoaderTool : Option ManagedTool)
    (name : String) (checked : Bool) (s : SessionState) : SessionState :=
  let enabledTools := s.tools.getD []
  let newTools :=
    if checked then enabledTools ++ [⟨name⟩]
    else enabledTools.filter fun enabledTool => enabledTool.name != name
  let isLoader :=
    match defaultFileLoaderTool with
    | some t => t.name == name
    | none => false
  { tools := some newTools
    fileIds := if isLoader then [] else s.fileIds
    composerFiles := if isLoader then [] else s.composerFiles }

/-- A document in a Google Drive picker result. -/
structure PickerDoc where
  type : String
deriving DecidableEq, Repr

/-- The picker callback payload; `docs` is `none` when the field is absent
(a JavaScript `undefined`), `some []` when it is an empty array. -/
structure PickerCallbackData where
  docs : Option (List PickerDoc)
deriving DecidableEq, Repr

/-- Observable outcome of running `handleCallback` on a picker result:
nothing happens, an info notice is shown without invoking the caller's
continuation, or the continuation is invoked with the given payload. -/
inductive PickerOutcome where
  | silent : PickerOutcome
  | notice (msg : String) : PickerOutcome
  | forward (data : PickerCallbackData) : PickerOutcome
deriving DecidableEq, Repr

/-- The `handleCallback` validator of `useOpenGoogleDrivePicker`:
`if (!data.docs) return;` then partition into folders and non-folders,
reject a mix with a notice, reject more than 5 files with a notice, and
otherwise invoke `callbackFunction(data)`. -/
def handleCallback (data : PickerCallbackData) : PickerOutcome :=
  match data.docs with
  | none => .silent
  | some docs =>
    let folders := docs.filter fun doc => doc.type == "folder"
    let files := docs.filter fun doc => doc.type != "folder"
    if 0 < folders.length ∧ 0 < files.length then
      .notice "Please select either files or folders."
    else if 5 < files.length then
      .notice "You can only select a maximum of 5 files."
    else
      .forward data

/-- Truth of the JavaScript falsiness test `!s` for an optional string:
true when the value is absent or the empty string. -/
def strFalsy : Option String → Bool
  | none => true
  | some v => v == ""

/-- What the function returned by `useOpenGoogleDrivePicker` does when
invoked: either it only reports an unavailability notice, or it opens the
picker with the given client id, developer key and token. -/
inductive PickerOpenAction where
  | unavailableNotice (msg : String) : PickerOpenAction
  | openPicker (clientId developerKey tok : String) : PickerOpenAction
deriving DecidableEq, Repr

/-- The configuration branch of `useOpenGoogleDrivePicker`: when the
client id or developer key is falsy the returned closure only calls
`info(...)`; otherwise it calls `openPicker` with
`token: googleDriveTool?.token || ''`. -/
def useOpenGoogleDrivePicker (googleDriveClientId googleDriveDeveloperKey : Option String)
    (googleDriveTool : Option ManagedTool) : PickerOpenAction :=
  if strFalsy googleDriveClientId || strFalsy googleDriveDeveloperKey then
    .unavailableNotice "Google Drive is not available at the moment."
  else
    .openPicker (googleDriveClientId.getD "") (googleDriveDeveloperKey.getD "")
      (((googleDriveTool.bind fun t => t.token).getD ""))

/-- A deployment target: a unique name and the ordered list of its
environment-variable names. -/
structure Deployment where
  name : String
  env_vars : List String
deriving DecidableEq, Repr

/-- A JavaScript object used as a string-keyed record, modelled as an
association list in insertion order. -/
abbrev EnvRecord := List (String × String)

/-- Assignment `acc[k] = v` on a string-keyed JavaScript object: when the
key is already present its value is updated in place (the key keeps its
original position), otherwise the pair is appended. -/
def recordInsert (r : EnvRecord) (k v : String) : EnvRecord :=
  if r.any (fun p => p.1 == k) then
    r.map fun p => if p.1 == k then (k, v) else p
  else
    r ++ [(k, v)]

/-- The seeding reducer used in both the `useState` initializer and
`handleDeploymentChange`:
`env_vars.reduce((acc, envVar) => \x7b acc[envVar] = ''; return acc \x7d, \x7b\x7d)`. -/
def emptyDraftOf (env_vars : List String) : EnvRecord :=
  env_vars.foldl (fun acc envVar => recordInsert acc envVar "") []

/-- The state of `EditEnvVariablesModal`: the selected deployment name
(the empty string is the falsy "none selected" default), the
environment-variable draft and the submitting flag. -/
structure ModalState where
  deployment : String
  envVariables : EnvRecord
  isSubmitting : Bool
deriving DecidableEq, Repr

/-- The deployment dropdown handler `handleDeploymentChange`: store the new
name, look it up in the deployment list with `find`, and replace the whole
draft with fresh empty values (`?? \x7b\x7d` when the lookup fails). -/
def handleDeploymentChange (deployments : Option (List Deployment))
    (newDeployment : String) (s : ModalState) : ModalState :=
  { s with
    deployment := newDeployment
    envVariables :=
      match (deployments.getD []).find? (fun d => d.name == newDeployment) with
      | some selectedDeployment => emptyDraftOf selectedDeployment.env_vars
      | none => [] }

/-- The per-field input handler `handleEnvVariableChange`:
`setEnvVariables(\x7b...envVariables, [envVar]: e.target.value\x7d)` — a spread
copy followed by one computed-key assignment. -/
def handleEnvVariableChange (envVar value : String) (s : ModalState) : ModalState :=
  { s with envVariables := recordInsert s.envVariables envVar value }

/-- Sequential application of field edits to the modal state. -/
def applyFieldEdits (s : ModalState) (edits : List (String × String)) : ModalState :=
  edits.foldl (fun st e => handleEnvVariableChange e.1 e.2 st) s

/-- Observable result of `handleSubmit`: the `deploymentConfig` string
written into session parameters (`none` when nothing is written) and
whether the close continuation was invoked. -/
structure SubmitResult where
  deploymentConfig : Option String
  closed : Bool
deriving DecidableEq, Repr

/-- The submit handler `handleSubmit`: `if (!deployment) return;` then set
`deploymentConfig` to `Object.entries(envVariables).map(([k, v]) =>
k + '=' + v).join(';')` and invoke `onClose()`. -/
def handleSubmit (s : ModalState) : SubmitResult :=
  if s.deployment = "" then
    { deploymentConfig := none, closed := false }
  else
    { deploymentConfig :=
        some (String.intercalate ";" (s.envVariables.map fun p => p.1 ++ "=" ++ p.2))
      closed := true }

/-- Definition following the spec's words for the available-tool filter:
the tools of the catalog, in catalog order, that are visible, available,
and whose name occurs in the agent allowlist when one is present. -/
def specAvailableTools (catalog : List ManagedTool)
    (agentTools : Option (List String)) : List ManagedTool :=
  catalog.filter fun t =>
    t.is_visible && t.is_available &&
      (match agentTools with
       | none => true
       | some allow => decide (t.name ∈ allow))

/-- C1: availableTools returns exactly the catalog tools, in catalog order,
that are visible, available and (when an allowlist is present) named in it;
an empty catalog or an empty allowlist yields the empty sequence. -/
theorem availableTools_matches_spec (catalog : List ManagedTool)
    (agentTools : Option (List String)) :
    availableTools catalog agentTools = specAvailableTools catalog agentTools
    ∧ (availableTools catalog agentTools).Sublist catalog
    ∧ availableTools [] agentTools = []
    ∧ availableTools catalog (some []) = [] := by
  refine ⟨?_, List.filter_sublist _, rfl, ?_⟩
  · unfold availableTools specAvailableTools
    apply List.filter_congr
    intro t _
    cases agentTools with
    | none => rfl
    | some allow =>
      simp only [Bool.and_left_comm]
      congr 1
      rw [Bool.eq_iff_iff]
      simp [List.any_eq_true]
  · simp [availableTools]

/-- C2 counterexample: toggling on a name that is already present appends a
second entry, so the set does not keep at most one entry per tool name. -/
theorem toggleOn_duplicate_entry :
    ((handleToggle none "web_search" true
        ⟨some [⟨"web_search"⟩], [], []⟩).tools.getD []).map EnabledToolRef.name
      = ["web_search", "web_search"]
    ∧ ¬ (((handleToggle none "web_search" true
        ⟨some [⟨"web_search"⟩], [], []⟩).tools.getD []).map
          EnabledToolRef.name).Nodup := by
  constructor
  · rfl
  · decide

/-- C2 (amended): a toggle-on of a name already in the set appends a
duplicate entry; the at-most-one-entry-per-name invariant is preserved by
every toggle-off, and by a toggle-on exactly when the name is not already
present. -/
theorem handleToggle_nodup_preserved (d : Option ManagedTool)
    (nm : String) (checked : Bool) (s : SessionState)
    (hnd : ((s.tools.getD []).map EnabledToolRef.name).Nodup)
    (hnew : checked = true → nm ∉ (s.tools.getD []).map EnabledToolRef.name) :
    (((handleToggle d nm checked s).tools.getD []).map
      EnabledToolRef.name).Nodup := by
  cases checked with
  | true =>
    have hmem := hnew rfl
    simp only [handleToggle, Option.getD_some, List.map_append, List.map_cons,
      List.map_nil, if_true]
    rw [List.nodup_append]
    refine ⟨hnd, List.nodup_singleton _, ?_⟩
    intro a ha hb
    rw [List.mem_singleton] at hb
    exact hmem (hb ▸ ha)
  | false =>
    simp only [handleToggle, Option.getD_some, Bool.false_eq_true, if_false]
    exact List.Nodup.sublist (List.Sublist.map _ (List.filter_sublist _)) hnd

/-- Witness for the amended C2 theorem at a concrete state. -/
theorem handleToggle_nodup_preserved_witness :
    (((handleToggle none "web_search" true
        ⟨some [⟨"wikipedia"⟩], [], []⟩).tools.getD []).map
      EnabledToolRef.name).Nodup :=
  handleToggle_nodup_preserved none "web_search" true
    ⟨some [⟨"wikipedia"⟩], [], []⟩ (by decide) (fun _ => by decide)

/-- C8: toggling a name on and then off, starting from a set not containing
that name, returns the enabled-tool set to its original content. -/
theorem toggle_on_then_off_restores (d : Option ManagedTool)
    (nm : String) (s : SessionState)
    (h : nm ∉ (s.tools.getD []).map EnabledToolRef.name) :
    ((handleToggle d nm false (handleToggle d nm true s)).tools.getD [])
      = s.tools.getD [] := by
  have hl : ∀ x ∈ s.tools.getD [], (x.name != nm) = true := by
    intro x hx
    simp only [bne_iff_ne, ne_eq]
    intro hx'
    exact h (hx' ▸ List.mem_map_of_mem EnabledToolRef.name hx)
  simp [handleToggle, List.filter_append, List.filter_eq_self.mpr hl]

/-- Witness for C8 at a concrete state. -/
theorem toggle_on_then_off_restores_witness :
    ((handleToggle none "web_search" false (handleToggle none "web_search" true
        ⟨some [⟨"wikipedia"⟩], ["a"], []⟩)).tools.getD [])
      = [⟨"wikipedia"⟩] :=
  toggle_on_then_off_restores none "web_search"
    ⟨some [⟨"wikipedia"⟩], ["a"], []⟩ (by decide)

/-- C9: toggling the default file-loader tool off empties the fileIds
parameter and the composer staging collection and removes every entry with
that name from the enabled-tool set, whatever the prior state. -/
theorem toggle_off_default_loader_clears_files (t : ManagedTool)
    (s : SessionState) :
    (handleToggle (some t) t.name false s).fileIds = []
    ∧ (handleToggle (some t) t.name false s).composerFiles = []
    ∧ ∀ r ∈ (handleToggle (some t) t.name false s).tools.getD [],
        r.name ≠ t.name := by
  refine ⟨by simp [handleToggle], by simp [handleToggle], ?_⟩
  intro r hr
  simp only [handleToggle, Option.getD_some, Bool.false_eq_true, if_false] at hr
  rw [List.mem_filter] at hr
  exact bne_iff_ne.mp hr.2

/-- Witness for C9 at a concrete state with staged files present. -/
theorem toggle_off_default_loader_clears_files_witness :
    (handleToggle (some ⟨"file_loader", true, true, false, none⟩)
        "file_loader" false
        ⟨some [⟨"file_loader"⟩, ⟨"web_search"⟩], ["a", "b"], ["f1"]⟩).fileIds = []
    ∧ (handleToggle (some ⟨"file_loader", true, true, false, none⟩)
        "file_loader" false
        ⟨some [⟨"file_loader"⟩, ⟨"web_search"⟩], ["a", "b"], ["f1"]⟩).composerFiles = []
    ∧ ∀ r ∈ (handleToggle (some ⟨"file_loader", true, true, false, none⟩)
        "file_loader" false
        ⟨some [⟨"file_loader"⟩, ⟨"web_search"⟩], ["a", "b"], ["f1"]⟩).tools.getD [],
        r.name ≠ "file_loader" :=
  toggle_off_default_loader_clears_files ⟨"file_loader", true, true, false, none⟩
    ⟨some [⟨"file_loader"⟩, ⟨"web_search"⟩], ["a", "b"], ["f1"]⟩

/-- C10: the file-clearing side effect keys on the name alone: toggling the
default file-loader tool on also empties fileIds and the staging
collection, exactly as toggling it off does. -/
theorem toggle_on_default_loader_also_clears (t : ManagedTool)
    (s : SessionState) :
    (handleToggle (some t) t.name true s).fileIds = []
    ∧ (handleToggle (some t) t.name true s).composerFiles = []
    ∧ (handleToggle (some t) t.name true s).fileIds
        = (handleToggle (some t) t.name false s).fileIds
    ∧ (handleToggle (some t) t.name true s).composerFiles
        = (handleToggle (some t) t.name false s).composerFiles := by
  refine ⟨?_, ?_, ?_, ?_⟩ <;> simp [handleToggle]

/-- C3 counterexample: a present but empty docs sequence is not rejected
silently; the continuation is invoked with the original payload. -/
theorem handleCallback_empty_docs_forwards :
    handleCallback ⟨some []⟩ = PickerOutcome.forward ⟨some []⟩
    ∧ handleCallback ⟨some []⟩ ≠ PickerOutcome.silent := by
  constructor
  · rfl
  · decide

/-- C3 (amended): a picker result whose docs field is absent is rejected
silently, with no continuation invocation and no notice; a present but
empty docs sequence is instead accepted and forwarded unchanged to the
continuation. -/
theorem handleCallback_absent_silent_empty_forwards (data : PickerCallbackData) :
    (data.docs = none → handleCallback data = PickerOutcome.silent)
    ∧ (data.docs = some [] → handleCallback data = PickerOutcome.forward data) := by
  obtain ⟨docs⟩ := data
  constructor
  · rintro rfl
    rfl
  · rintro rfl
    rfl

/-- Witness for the amended C3 theorem at the two concrete payloads. -/
theorem handleCallback_absent_silent_empty_forwards_witness :
    handleCallback ⟨none⟩ = PickerOutcome.silent
    ∧ handleCallback ⟨some []⟩ = PickerOutcome.forward ⟨some []⟩ :=
  ⟨(handleCallback_absent_silent_empty_forwards ⟨none⟩).1 rfl,
   (handleCallback_absent_silent_empty_forwards ⟨some []⟩).2 rfl⟩

/-- C4: on a non-empty docs sequence the validation rules apply in order:
a mix of folder and non-folder docs is rejected with the mixed-selection
notice; otherwise more than 5 non-folder docs are rejected with the
too-many-files notice; otherwise the continuation receives the full
original payload unchanged. -/
theorem handleCallback_validation_rules (docs : List PickerDoc) (_hne : docs ≠ []) :
    (0 < (docs.filter fun doc => doc.type == "folder").length →
     0 < (docs.filter fun doc => doc.type != "folder").length →
       handleCallback ⟨some docs⟩
         = PickerOutcome.notice "Please select either files or folders.")
    ∧ (((docs.filter fun doc => doc.type == "folder").length = 0
        ∨ (docs.filter fun doc => doc.type != "folder").length = 0) →
       5 < (docs.filter fun doc => doc.type != "folder").length →
         handleCallback ⟨some docs⟩
           = PickerOutcome.notice "You can only select a maximum of 5 files.")
    ∧ (((docs.filter fun doc => doc.type == "folder").length = 0
        ∨ (docs.filter fun doc => doc.type != "folder").length = 0) →
       (docs.filter fun doc => doc.type != "folder").length ≤ 5 →
         handleCallback ⟨some docs⟩ = PickerOutcome.forward ⟨some docs⟩) := by
  refine ⟨?_, ?_, ?_⟩
  · intro hfo hfi
    simp only [handleCallback]
    rw [if_pos ⟨hfo, hfi⟩]
  · intro hnomix hgt
    simp only [handleCallback]
    rw [if_neg (by omega), if_pos hgt]
  · intro hnomix hle
    simp only [handleCallback]
    rw [if_neg (by omega), if_neg (by omega)]

/-- Witness for C4: a mixed folder-and-file selection is rejected with the
mixed-selection notice. -/
theorem handleCallback_validation_rules_witness :
    handleCallback ⟨some [⟨"folder"⟩, ⟨"document"⟩]⟩
      = PickerOutcome.notice "Please select either files or folders." :=
  (handleCallback_validation_rules [⟨"folder"⟩, ⟨"document"⟩] (by decide)).1
    (by decide) (by decide)

/-- C5: when the client id or the developer key is missing (absent or
empty), the picker-open operation is a single no-op reporting the
unavailability notice; the picker is never opened in that state. -/
theorem picker_unavailable_when_config_missing
    (googleDriveClientId googleDriveDeveloperKey : Option String)
    (googleDriveTool : Option ManagedTool)
    (h : strFalsy googleDriveClientId = true
         ∨ strFalsy googleDriveDeveloperKey = true) :
    useOpenGoogleDrivePicker googleDriveClientId googleDriveDeveloperKey
        googleDriveTool
      = PickerOpenAction.unavailableNotice
          "Google Drive is not available at the moment."
    ∧ ∀ cid dk tok,
        useOpenGoogleDrivePicker googleDriveClientId googleDriveDeveloperKey
            googleDriveTool
          ≠ PickerOpenAction.openPicker cid dk tok := by
  have hcond : (strFalsy googleDriveClientId
      || strFalsy googleDriveDeveloperKey) = true := by
    rcases h with h | h <;> simp [h]
  constructor
  · simp [useOpenGoogleDrivePicker, hcond]
  · intro cid dk tok
    simp [useOpenGoogleDrivePicker, hcond]

/-- Witness for C5 with a missing developer key. -/
theorem picker_unavailable_when_config_missing_witness :
    useOpenGoogleDrivePicker (some "client-id") none
        (some ⟨"google_drive", true, true, true, some "tok"⟩)
      = PickerOpenAction.unavailableNotice
          "Google Drive is not available at the moment." :=
  (picker_unavailable_when_config_missing (some "client-id") none
    (some ⟨"google_drive", true, true, true, some "tok"⟩) (Or.inr rfl)).1

/-- The key list of a record after one assignment: unchanged when the key
was already present, extended by the key otherwise. -/
theorem keys_recordInsert (r : EnvRecord) (k v : String) :
    (recordInsert r k v).map Prod.fst =
      if r.any (fun p => p.1 == k) then r.map Prod.fst
      else r.map Prod.fst ++ [k] := by
  by_cases hc : r.any (fun p => p.1 == k) = true
  · rw [recordInsert, if_pos hc, if_pos hc, List.map_map]
    apply List.map_congr_left
    intro p _
    by_cases hp : (p.1 == k) = true
    · simp only [Function.comp_apply, hp, if_true]
      exact (beq_iff_eq.mp hp).symm
    · simp only [Function.comp_apply]
      rw [if_neg hp]
  · rw [recordInsert, if_neg hc, if_neg hc]
    simp

/-- A pair of a record after one assignment either carries the assigned
value or was already in the record. -/
theorem snd_of_mem_recordInsert (r : EnvRecord) (k v : String) (p : String × String)
    (hp : p ∈ recordInsert r k v) : p.2 = v ∨ p ∈ r := by
  rw [recordInsert] at hp
  split at hp
  · obtain ⟨q, hq, hfq⟩ := List.mem_map.mp hp
    by_cases h : (q.1 == k) = true
    · left
      rw [← hfq]
      simp [h]
    · right
      rw [← hfq, if_neg h]
      exact hq
  · rcases List.mem_append.mp hp with h | h
    · right
      exact h
    · left
      rw [List.mem_singleton.mp h]

/-- Every value of a seeded draft is the empty string, for any clean
accumulator. -/
theorem values_draft_foldl (l : List String) (acc : EnvRecord)
    (hacc : ∀ p ∈ acc, p.2 = "") :
    ∀ p ∈ l.foldl (fun a envVar => recordInsert a envVar "") acc, p.2 = "" := by
  induction l generalizing acc with
  | nil => exact hacc
  | cons k ls ih =>
    rw [List.foldl_cons]
    apply ih
    intro p hp
    rcases snd_of_mem_recordInsert acc k "" p hp with h | h
    · exact h
    · exact hacc p h

/-- Every value of a freshly seeded draft is the empty string. -/
theorem emptyDraftOf_values (l : List String) :
    ∀ p ∈ emptyDraftOf l, p.2 = "" :=
  values_draft_foldl l [] (by simp)

/-- The key set of a seeded draft is the accumulator's keys united with the
seeded variable names. -/
theorem keys_draft_foldl_toFinset (l : List String) (acc : EnvRecord) :
    ((l.foldl (fun a envVar => recordInsert a envVar "") acc).map
      Prod.fst).toFinset
      = (acc.map Prod.fst).toFinset ∪ l.toFinset := by
  induction l generalizing acc with
  | nil => simp
  | cons k ls ih =>
    rw [List.foldl_cons, ih]
    have hkeys := keys_recordInsert acc k ""
    by_cases hc : acc.any (fun p => p.1 == k) = true
    · rw [hkeys, if_pos hc]
      obtain ⟨p, hp, hpk⟩ := List.any_eq_true.mp hc
      have hk : k ∈ (acc.map Prod.fst).toFinset := by
        rw [List.mem_toFinset, ← beq_iff_eq.mp hpk]
        exact List.mem_map_of_mem Prod.fst hp
      ext x
      simp only [Finset.mem_union, List.toFinset_cons, Finset.mem_insert]
      constructor
      · tauto
      · rintro (h | rfl | h) <;> tauto
    · rw [hkeys, if_neg hc]
      ext x
      simp only [List.toFinset_append, Finset.mem_union, List.toFinset_cons,
        Finset.mem_insert, List.toFinset_nil, List.mem_toFinset,
        List.mem_singleton]
      tauto

/-- The key set of a freshly seeded draft equals the set of seeded names. -/
theorem emptyDraftOf_keys_toFinset (l : List String) :
    ((emptyDraftOf l).map Prod.fst).toFinset = l.toFinset := by
  have h := keys_draft_foldl_toFinset l []
  simpa [emptyDraftOf] using h

/-- C6: switching the selected deployment replaces the whole draft
independently of the previous draft; on a successful lookup the new key
set is exactly the deployment's env_vars with every value empty, and a
failed lookup yields the empty mapping. -/
theorem handleDeploymentChange_resets_draft (deployments : Option (List Deployment))
    (newDeployment : String) (s₁ s₂ : ModalState) :
    (handleDeploymentChange deployments newDeployment s₁).envVariables
      = (handleDeploymentChange deployments newDeployment s₂).envVariables
    ∧ (∀ d, (deployments.getD []).find? (fun x => x.name == newDeployment)
          = some d →
        (((handleDeploymentChange deployments newDeployment s₁).envVariables.map
            Prod.fst).toFinset = d.env_vars.toFinset
         ∧ ∀ p ∈ (handleDeploymentChange deployments newDeployment
              s₁).envVariables, p.2 = ""))
    ∧ ((deployments.getD []).find? (fun x => x.name == newDeployment) = none →
        (handleDeploymentChange deployments newDeployment s₁).envVariables
          = []) := by
  refine ⟨by simp [handleDeploymentChange], ?_, ?_⟩
  · intro d hd
    simp only [handleDeploymentChange, hd]
    exact ⟨emptyDraftOf_keys_toFinset d.env_vars, emptyDraftOf_values d.env_vars⟩
  · intro hd
    simp [handleDeploymentChange, hd]

/-- Witness for C6: selecting deployment prod over a stale non-empty draft
yields exactly the prod variables, all empty. -/
theorem handleDeploymentChange_resets_draft_witness :
    ((handleDeploymentChange (some [⟨"prod", ["API_KEY", "REGION"]⟩]) "prod"
        ⟨"", [("OLD_VAR", "stale")], false⟩).envVariables.map
      Prod.fst).toFinset = (["API_KEY", "REGION"] : List String).toFinset
    ∧ ∀ p ∈ (handleDeploymentChange (some [⟨"prod", ["API_KEY", "REGION"]⟩])
        "prod" ⟨"", [("OLD_VAR", "stale")], false⟩).envVariables, p.2 = "" :=
  (handleDeploymentChange_resets_draft (some [⟨"prod", ["API_KEY", "REGION"]⟩])
    "prod" ⟨"", [("OLD_VAR", "stale")], false⟩
    ⟨"", [], false⟩).2.1 ⟨"prod", ["API_KEY", "REGION"]⟩ rfl

/-- An assignment to a key already present leaves the record's key list
unchanged. -/
theorem keys_recordInsert_of_mem (r : EnvRecord) (k v : String)
    (h : k ∈ r.map Prod.fst) :
    (recordInsert r k v).map Prod.fst = r.map Prod.fst := by
  rw [keys_recordInsert, if_pos]
  obtain ⟨p, hp, hpk⟩ := List.mem_map.mp h
  exact List.any_eq_true.mpr ⟨p, hp, beq_iff_eq.mpr hpk⟩

/-- Field edits on keys of the draft never change the draft's key list or
the selected deployment. -/
theorem applyFieldEdits_keys (edits : List (String × String)) (s : ModalState)
    (h : ∀ e ∈ edits, e.1 ∈ s.envVariables.map Prod.fst) :
    (applyFieldEdits s edits).envVariables.map Prod.fst
        = s.envVariables.map Prod.fst
    ∧ (applyFieldEdits s edits).deployment = s.deployment := by
  induction edits generalizing s with
  | nil => exact ⟨rfl, rfl⟩
  | cons e es ih =>
    have hk : e.1 ∈ s.envVariables.map Prod.fst := h e (List.mem_cons_self e es)
    have h1 : (handleEnvVariableChange e.1 e.2 s).envVariables.map Prod.fst
        = s.envVariables.map Prod.fst :=
      keys_recordInsert_of_mem s.envVariables e.1 e.2 hk
    have h2 := ih (handleEnvVariableChange e.1 e.2 s)
      (fun x hx => h1 ▸ h x (List.mem_cons_of_mem e hx))
    exact ⟨h2.1.trans h1, h2.2⟩

/-- The key list of a seeded draft equals the seeded names when these hold
no duplicate, for any accumulator keeping the whole key list duplicate
free. -/
theorem keys_draft_foldl_nodup (l : List String) (acc : EnvRecord)
    (hnd : ((acc.map Prod.fst) ++ l).Nodup) :
    (l.foldl (fun a envVar => recordInsert a envVar "") acc).map Prod.fst
      = acc.map Prod.fst ++ l := by
  induction l generalizing acc with
  | nil => simp
  | cons k ls ih =>
    have hk : k ∉ acc.map Prod.fst := by
      rw [List.nodup_append] at hnd
      exact fun h => hnd.2.2 h (List.mem_cons_self k ls)
    have hins : (recordInsert acc k "").map Prod.fst
        = acc.map Prod.fst ++ [k] := by
      rw [keys_recordInsert, if_neg]
      intro hc
      obtain ⟨p, hp, hpk⟩ := List.any_eq_true.mp hc
      have hmem : p.1 ∈ acc.map Prod.fst := List.mem_map_of_mem Prod.fst hp
      rw [beq_iff_eq.mp hpk] at hmem
      exact hk hmem
    have hnd' : ((recordInsert acc k "").map Prod.fst ++ ls).Nodup := by
      rw [hins, List.append_assoc, List.singleton_append]
      exact hnd
    rw [List.foldl_cons, ih _ hnd', hins, List.append_assoc,
      List.singleton_append]

/-- The key list of a freshly seeded draft is exactly the seeded names,
when these hold no duplicate. -/
theorem emptyDraftOf_keys_of_nodup (l : List String) (h : l.Nodup) :
    (emptyDraftOf l).map Prod.fst = l := by
  have hl := keys_draft_foldl_nodup l [] (by simpa using h)
  simpa [emptyDraftOf] using hl

/-- C7: after selecting a deployment found in the catalog and editing only
its own variables, submit writes the single string joining key=value pairs
with semicolons, with the keys in the iteration order of the deployment's
env_vars, and invokes the close continuation; with no deployment selected
submit writes nothing and does not close. -/
theorem handleSubmit_serializes_draft (deployments : Option (List Deployment))
    (d : Deployment) (newDeployment : String) (s₀ : ModalState)
    (edits : List (String × String))
    (hfind : (deployments.getD []).find? (fun x => x.name == newDeployment)
        = some d)
    (hnodup : d.env_vars.Nodup)
    (hedits : ∀ e ∈ edits, e.1 ∈ d.env_vars)
    (hname : newDeployment ≠ "") :
    (applyFieldEdits (handleDeploymentChange deployments newDeployment s₀)
        edits).envVariables.map Prod.fst = d.env_vars
    ∧ handleSubmit (applyFieldEdits
        (handleDeploymentChange deployments newDeployment s₀) edits)
      = { deploymentConfig := some (String.intercalate ";"
            ((applyFieldEdits (handleDeploymentChange deployments newDeployment
              s₀) edits).envVariables.map fun p => p.1 ++ "=" ++ p.2))
          closed := true }
    ∧ (∀ s, s.deployment = "" →
        handleSubmit s = { deploymentConfig := none, closed := false }) := by
  have hkeys0 : (handleDeploymentChange deployments newDeployment
      s₀).envVariables.map Prod.fst = d.env_vars := by
    simp only [handleDeploymentChange, hfind]
    exact emptyDraftOf_keys_of_nodup d.env_vars hnodup
  obtain ⟨hkeys, hdep⟩ := applyFieldEdits_keys edits
    (handleDeploymentChange deployments newDeployment s₀)
    (fun e he => hkeys0 ▸ hedits e he)
  refine ⟨hkeys.trans hkeys0, ?_, ?_⟩
  · have hdep' : (applyFieldEdits (handleDeploymentChange deployments
        newDeployment s₀) edits).deployment = newDeployment := by
      rw [hdep]
      rfl
    rw [handleSubmit, hdep', if_neg hname]
  · intro s hs
    simp [handleSubmit, hs]

/-- Witness for C7: deployment prod with API_KEY=x and REGION=us submits
the single string API_KEY=x;REGION=us and closes. -/
theorem handleSubmit_serializes_draft_witness :
    handleSubmit (applyFieldEdits
        (handleDeploymentChange (some [⟨"prod", ["API_KEY", "REGION"]⟩])
          "prod" ⟨"", [], false⟩)
        [("API_KEY", "x"), ("REGION", "us")])
      = { deploymentConfig := some "API_KEY=x;REGION=us", closed := true } := by
  have h := (handleSubmit_serializes_draft
    (some [⟨"prod", ["API_KEY", "REGION"]⟩]) ⟨"prod", ["API_KEY", "REGION"]⟩
    "prod" ⟨"", [], false⟩ [("API_KEY", "x"), ("REGION", "us")]
    rfl (by decide) (by decide) (by decide)).2.1
  rw [h]
  rfl

end CohereToolkit
